import Mathlib

/-!
Shallow embedding of the stock-exchange code in src/stock_factory.py and
src/stock_market_ops.py.

Modelling conventions: Python numbers become rationals; timestamps become
rational seconds, so the five-minute window bound is 300; datetime.now()
becomes an explicit now argument.  A Python method that catches an internal
exception, logs it and returns None is modelled with Option (none is the
logged-and-swallowed error path); an exception that propagates uncaught to
the caller is modelled with Except.error.
-/

/-- A recorded trade.  stock.trades stores tuples
(timestamp, quantity, trade_type, price). -/
structure Trade where
  timestamp : ℚ
  quantity : ℚ
  trade_type : String
  price : ℚ
deriving DecidableEq

/-- The runtime class of a stock object produced by the factory:
CommonStock or PreferredStock. -/
inductive StockClass where
  | common
  | preferred
deriving DecidableEq

/-- The attributes set by Stock.__init__ in stock_factory.py, together with
the runtime class chosen by StockFactory.create_stock.  fixed_dividend is an
Option: none models the Python value None. -/
structure Stock where
  cls : StockClass
  symbol : String
  stock_type : String
  last_dividend : ℚ
  fixed_dividend : Option ℚ
  par_value : ℚ
  trades : List Trade
deriving DecidableEq

/-- CommonStock.calculate_dividend_yield:
return self.last_dividend / price if price > 0 else 0. -/
def CommonStock.calculate_dividend_yield (self : Stock) (price : ℚ) : ℚ :=
  if 0 < price then self.last_dividend / price else 0

/-- PreferredStock.calculate_dividend_yield:
return (self.fixed_dividend * self.par_value) / price if price > 0 else 0.
When fixed_dividend is None and price > 0, Python multiplies None by a number
and raises an uncaught TypeError; that path is the .error case. -/
def PreferredStock.calculate_dividend_yield (self : Stock) (price : ℚ) :
    Except String ℚ :=
  if 0 < price then
    match self.fixed_dividend with
    | some f => .ok ((f * self.par_value) / price)
    | none => .error "TypeError"
  else .ok 0

/-- StockFactory.create_stock: dispatches on stock_type and raises ValueError
(uncaught, hence .error) for an unknown type.  Both success branches pass
fixed_dividend through unchanged, None included, and start with an empty
trades deque. -/
def StockFactory.create_stock (symbol stock_type : String)
    (last_dividend par_value : ℚ) (fixed_dividend : Option ℚ) :
    Except String Stock :=
  if stock_type = "Common" then
    .ok ⟨.common, symbol, stock_type, last_dividend, fixed_dividend, par_value, []⟩
  else if stock_type = "Preferred" then
    .ok ⟨.preferred, symbol, stock_type, last_dividend, fixed_dividend, par_value, []⟩
  else .error "Invalid stock type"

/-- StockOps.calculate_dividend_yield.  The method body reads self.stock_type,
self.last_dividend, self.fixed_dividend and self.par_value, i.e. it uses its
receiver as a stock record, so the receiver is modelled as a Stock.  A price
at most 0 raises ValueError, and a stock type other than Common, or Preferred
with fixed_dividend None, falls to the final raise; every raise is caught by
the surrounding except, logged, and turned into a returned None (none). -/
def StockOps.calculate_dividend_yield (self : Stock) (price : ℚ) : Option ℚ :=
  if price ≤ 0 then none
  else if self.stock_type = "Common" then some (self.last_dividend / price)
  else if self.stock_type = "Preferred" then
    match self.fixed_dividend with
    | some f => some ((f * self.par_value) / price)
    | none => none
  else none

/-- The two possible results of StockOps.calculate_pe_ratio: the float('inf')
sentinel or a number.  On rational inputs no statement of its try-block can
raise (the division is guarded by last_dividend being nonzero), so the except
branch returning None is dead and is not part of the result type. -/
inductive PEResult where
  | unbounded
  | value (q : ℚ)
deriving DecidableEq

/-- StockOps.calculate_pe_ratio(price, stock): float('inf') when
stock.last_dividend == 0, otherwise price / stock.last_dividend.  The
function performs no validation of price. -/
def StockOps.calculate_pe_ratio (price : ℚ) (stock : Stock) : PEResult :=
  if stock.last_dividend = 0 then .unbounded
  else .value (price / stock.last_dividend)

/-- The validation at the top of StockOps.record_trade; .error carries the
message of the raised ValueError. -/
def record_trade_validate (quantity : ℚ) (trade_type : String) (price : ℚ) :
    Except String Unit :=
  if quantity ≤ 0 ∨ price ≤ 0 then
    .error "Quantity and price must be greater than zero"
  else if ¬ (trade_type = "BUY" ∨ trade_type = "SELL") then
    .error "Trade type must be BUY or SELL"
  else .ok ()

/-- StockOps.record_trade: on valid input appends
(timestamp, quantity, trade_type, price) to stock.trades; on invalid input
the ValueError is caught inside the function and only logged, so the stock is
returned unchanged.  Python returns None to the caller on every path; the
timestamp taken from datetime.now() is the explicit now argument. -/
def StockOps.record_trade (stock : Stock) (quantity : ℚ) (trade_type : String)
    (price : ℚ) (now : ℚ) : Stock :=
  match record_trade_validate quantity trade_type price with
  | .error _ => stock
  | .ok _ => { stock with trades := stock.trades ++ [⟨now, quantity, trade_type, price⟩] }

/-- StockOps.calculate_volume_weighted_stock_price: keeps the trades with
ts >= now - timedelta(minutes=5) (timestamps in seconds, so the bound is
now - 300; the source filter has no upper bound), returns 0 when none are
kept, and otherwise sum(qty * price) / sum(qty), with the final
"if total_qty else 0" guard of the source. -/
def StockOps.calculate_volume_weighted_stock_price (stock : Stock) (now : ℚ) : ℚ :=
  let past_five_minutes := now - 300
  let relevant_trades :=
    (stock.trades.filter (fun t => decide (past_five_minutes ≤ t.timestamp))).map
      (fun t => (t.quantity, t.price))
  if relevant_trades.isEmpty then 0
  else
    let total_price_qty := (relevant_trades.map (fun qp => qp.1 * qp.2)).sum
    let total_qty := (relevant_trades.map (fun qp => qp.1)).sum
    if total_qty = 0 then 0 else total_price_qty / total_qty

/-- Python dict assignment d[k] = v on an association list: replaces the
binding in place when the key is present, appends a new binding otherwise. -/
def dictInsert (l : List (String × Stock)) (k : String) (v : Stock) :
    List (String × Stock) :=
  match l with
  | [] => [(k, v)]
  | (k2, v2) :: rest =>
    if k2 = k then (k, v) :: rest else (k2, v2) :: dictInsert rest k v

/-- Python dict lookup d[k], as an Option. -/
def dictGet (l : List (String × Stock)) (k : String) : Option Stock :=
  match l with
  | [] => none
  | (k2, v2) :: rest => if k2 = k then some v2 else dictGet rest k

/-- StockMarket: self.stocks is a dict from symbol to stock, modelled as an
insertion-ordered association list with unique keys. -/
structure StockMarket where
  stocks : List (String × Stock)

/-- StockMarket.add_stock: the isinstance check always passes in this typed
model, so the body is the dict assignment
self.stocks[stock.symbol] = stock, and no error path remains. -/
def StockMarket.add_stock (m : StockMarket) (stock : Stock) : StockMarket :=
  ⟨dictInsert m.stocks stock.symbol stock⟩

/-- StockMarket.get_all_share_index: the VWSP of every stock in the market,
kept when "p and p > 0" holds (Python truthiness: p nonzero, and then
p > 0), then product ** (1 / len(prices)); 0 when nothing is kept. -/
noncomputable def StockMarket.get_all_share_index (m : StockMarket) (now : ℚ) : ℝ :=
  let prices := m.stocks.map
    (fun kv => StockOps.calculate_volume_weighted_stock_price kv.2 now)
  let kept := prices.filter (fun p => decide (p ≠ 0) && decide (0 < p))
  if kept.isEmpty then 0
  else ((kept.map (fun q : ℚ => (q : ℝ))).prod) ^ ((1 : ℝ) / kept.length)

/-- The window selection described by the spec, for comparison with the code:
trades with timestamp in the closed interval from now - 300 to now. -/
def specWindowSelection (stock : Stock) (now : ℚ) : List Trade :=
  stock.trades.filter
    (fun t => decide (now - 300 ≤ t.timestamp ∧ t.timestamp ≤ now))

/-- The list of positive volume-weighted prices of the market, i.e. the
values the spec keeps after discarding every result that is at most 0. -/
def positiveVWSPs (m : StockMarket) (now : ℚ) : List ℚ :=
  (m.stocks.map
    (fun kv => StockOps.calculate_volume_weighted_stock_price kv.2 now)).filter
    (fun p => decide (0 < p))

/-- Appending a list of trades one record_trade call at a time; each trade
carries the clock value used as its timestamp. -/
def recordAll (s : Stock) (l : List Trade) : Stock :=
  l.foldl
    (fun st t => StockOps.record_trade st t.quantity t.trade_type t.price t.timestamp)
    s

/-- The trade validity predicate enforced by record_trade_validate. -/
def validTrade (t : Trade) : Prop :=
  0 < t.quantity ∧ 0 < t.price ∧ (t.trade_type = "BUY" ∨ t.trade_type = "SELL")

instance : DecidablePred validTrade := fun t => by
  unfold validTrade; infer_instance

/-- The sample Common stock TEA of main(): last dividend 0, par value 100. -/
def teaStock : Stock := ⟨.common, "TEA", "Common", 0, none, 100, []⟩

/-- The sample Common stock POP of main(): last dividend 8, par value 100. -/
def popStock : Stock := ⟨.common, "POP", "Common", 8, none, 100, []⟩

/-- The sample Preferred stock GIN of main(): last dividend 8, fixed
dividend 0.02, par value 100. -/
def ginStock : Stock := ⟨.preferred, "GIN", "Preferred", 8, some (1 / 50), 100, []⟩

/-- Claim C1: for every price > 0, the dividend yield of a Common equity is
lastDividend / price and the dividend yield of a Preferred equity with
fixedDividend present is (fixedDividend * parValue) / price, both in the
subclass methods of stock_factory.py and in
StockOps.calculate_dividend_yield. -/
theorem dividend_yield_positive_price (s : Stock) (price : ℚ) (hp : 0 < price) :
    CommonStock.calculate_dividend_yield s price = s.last_dividend / price ∧
    (s.stock_type = "Common" →
      StockOps.calculate_dividend_yield s price = some (s.last_dividend / price)) ∧
    (∀ f, s.fixed_dividend = some f →
      PreferredStock.calculate_dividend_yield s price = .ok ((f * s.par_value) / price) ∧
      (s.stock_type = "Preferred" →
        StockOps.calculate_dividend_yield s price = some ((f * s.par_value) / price))) := by
  have hnle : ¬ price ≤ 0 := not_le.mpr hp
  refine ⟨?_, ?_, ?_⟩
  · simp [CommonStock.calculate_dividend_yield, hp]
  · intro hc
    simp [StockOps.calculate_dividend_yield, hnle, hc]
  · intro f hf
    refine ⟨?_, ?_⟩
    · simp [PreferredStock.calculate_dividend_yield, hp, hf]
    · intro hpref
      have hcne : s.stock_type ≠ "Common" := by rw [hpref]; decide
      simp [StockOps.calculate_dividend_yield, hnle, hcne, hpref, hf]

/-- Witness for C1: the Common half at the POP sample stock (a Common stock
with fixed_dividend None, as the factory constructs them) and the Preferred
half at the GIN sample stock, both at price 100. -/
theorem dividend_yield_positive_price_witness :
    CommonStock.calculate_dividend_yield popStock 100 = 8 / 100 ∧
    StockOps.calculate_dividend_yield popStock 100 = some (8 / 100) ∧
    PreferredStock.calculate_dividend_yield ginStock 100 = .ok ((1 / 50 * 100) / 100) ∧
    StockOps.calculate_dividend_yield ginStock 100 = some ((1 / 50 * 100) / 100) := by
  have hc := dividend_yield_positive_price popStock 100 (by norm_num)
  have hg := dividend_yield_positive_price ginStock 100 (by norm_num)
  have hgp := hg.2.2 (1 / 50) rfl
  exact ⟨hc.1, hc.2.1 rfl, hgp.1, hgp.2 rfl⟩

/-- Claim C4 counterexample: at price -1 the Common subclass method returns
the number 0 (and StockOps.calculate_dividend_yield returns a logged None,
not a typed DomainError), so no variant fails with a surfaced DomainError. -/
theorem dividend_yield_nonpositive_counterexample :
    CommonStock.calculate_dividend_yield popStock (-1) = 0 ∧
    StockOps.calculate_dividend_yield popStock (-1) = none := by
  constructor <;> rfl

/-- Claim C4 (amended): for every price at most 0 the subclass methods
return the number 0, and StockOps.calculate_dividend_yield catches its own
ValueError, logs it and returns None; no typed DomainError reaches the
caller on any path. -/
theorem dividend_yield_nonpositive (s : Stock) (price : ℚ) (hp : price ≤ 0) :
    CommonStock.calculate_dividend_yield s price = 0 ∧
    PreferredStock.calculate_dividend_yield s price = .ok 0 ∧
    StockOps.calculate_dividend_yield s price = none := by
  have hnlt : ¬ 0 < price := not_lt.mpr hp
  refine ⟨?_, ?_, ?_⟩
  · simp [CommonStock.calculate_dividend_yield, hnlt]
  · simp [PreferredStock.calculate_dividend_yield, hnlt]
  · simp [StockOps.calculate_dividend_yield, hp]

/-- Witness for amended C4 at the GIN sample stock and price -1. -/
theorem dividend_yield_nonpositive_witness :
    CommonStock.calculate_dividend_yield ginStock (-1) = 0 ∧
    PreferredStock.calculate_dividend_yield ginStock (-1) = .ok 0 ∧
    StockOps.calculate_dividend_yield ginStock (-1) = none :=
  dividend_yield_nonpositive ginStock (-1) (by norm_num)

/-- Claim C5: when the last dividend is 0, calculate_pe_ratio returns the
infinite sentinel for any positive price; the result type has no error
case, because nothing in the try-block can raise on these inputs. -/
theorem pe_ratio_zero_dividend (price : ℚ) (s : Stock) (hp : 0 < price)
    (hd : s.last_dividend = 0) :
    StockOps.calculate_pe_ratio price s = .unbounded := by
  simp [StockOps.calculate_pe_ratio, hd]

/-- Witness for C5 at the TEA sample stock (last dividend 0) and price 100. -/
theorem pe_ratio_zero_dividend_witness :
    StockOps.calculate_pe_ratio 100 teaStock = .unbounded :=
  pe_ratio_zero_dividend 100 teaStock (by norm_num) rfl

/-- Claim C6 counterexample: at price -10 on the POP sample stock (last
dividend 8) calculate_pe_ratio returns the numeric value -10 / 8 instead of
failing with NonPositivePrice. -/
theorem pe_ratio_nonpositive_counterexample :
    StockOps.calculate_pe_ratio (-10) popStock = .value (-10 / 8) := by
  rfl

/-- Claim C6 (amended): calculate_pe_ratio performs no price validation at
all: for price at most 0 and a nonzero last dividend it returns the numeric
value price / lastDividend (and for a zero last dividend the infinite
sentinel); no DomainError exists on this path. -/
theorem pe_ratio_nonpositive_price (price : ℚ) (s : Stock) (hp : price ≤ 0)
    (hd : s.last_dividend ≠ 0) :
    StockOps.calculate_pe_ratio price s = .value (price / s.last_dividend) := by
  simp [StockOps.calculate_pe_ratio, hd]

/-- Witness for amended C6 at price -10 on the GIN sample stock. -/
theorem pe_ratio_nonpositive_price_witness :
    StockOps.calculate_pe_ratio (-10) ginStock = .value (-10 / 8) :=
  pe_ratio_nonpositive_price (-10) ginStock (by norm_num) (by norm_num [ginStock])

/-- Claim C7 counterexample: at the claim's own input (quantity 0, BUY,
price 10) the internal ValueError is indeed raised by the validation, but
record_trade swallows it: the call completes normally and hands the caller
the unchanged stock, with no ValidationError value surfaced. -/
theorem record_trade_counterexample :
    record_trade_validate 0 "BUY" 10 =
      .error "Quantity and price must be greater than zero" ∧
    StockOps.record_trade popStock 0 "BUY" 10 0 = popStock := by
  constructor <;> rfl

/-- Claim C7 (amended): a trade with quantity at most 0, price at most 0, or
a side other than BUY or SELL fails the internal validation, and
record_trade returns with the stock (hence the ledger and its length)
unchanged; the ValueError is caught and logged inside the function, so the
caller receives None exactly as on a successful call. -/
theorem record_trade_invalid (s : Stock) (q : ℚ) (ty : String) (p ts : ℚ)
    (h : q ≤ 0 ∨ p ≤ 0 ∨ (ty ≠ "BUY" ∧ ty ≠ "SELL")) :
    (∃ msg, record_trade_validate q ty p = .error msg) ∧
    StockOps.record_trade s q ty p ts = s := by
  have hval : ∃ msg, record_trade_validate q ty p = .error msg := by
    unfold record_trade_validate
    rcases h with h1 | h2 | h3
    · exact ⟨"Quantity and price must be greater than zero", by simp [h1]⟩
    · exact ⟨"Quantity and price must be greater than zero", by simp [h2]⟩
    · by_cases hqp : q ≤ 0 ∨ p ≤ 0
      · exact ⟨"Quantity and price must be greater than zero", by simp [hqp]⟩
      · refine ⟨"Trade type must be BUY or SELL", ?_⟩
        rw [if_neg hqp, if_pos]
        push_neg
        exact h3
  refine ⟨hval, ?_⟩
  obtain ⟨msg, hmsg⟩ := hval
  unfold StockOps.record_trade
  rw [hmsg]

/-- Witness for amended C7: quantity 0, BUY, price 10 on the TEA sample
stock leaves the stock unchanged. -/
theorem record_trade_invalid_witness :
    (∃ msg, record_trade_validate 0 "BUY" 10 = .error msg) ∧
    StockOps.record_trade teaStock 0 "BUY" 10 0 = teaStock :=
  record_trade_invalid teaStock 0 "BUY" 10 0 (Or.inl (by norm_num))

/-- Claim C8 counterexample: creating a Preferred stock with fixed_dividend
absent (None) succeeds, producing a PreferredStock value whose
fixed_dividend is None; no MissingFixedDividend error exists. -/
theorem create_stock_missing_fixed_counterexample :
    StockFactory.create_stock "GIN" "Preferred" 8 100 none =
      .ok ⟨.preferred, "GIN", "Preferred", 8, none, 100, []⟩ := by
  rfl

/-- Claim C8 (amended): constructing a Preferred equity with fixedDividend
absent succeeds, silently defaulting fixed_dividend to None and producing a
PreferredStock value; the factory only fails on an unknown stock type. -/
theorem create_stock_preferred_missing_fixed (sym : String) (ld pv : ℚ) :
    StockFactory.create_stock sym "Preferred" ld pv none =
      .ok ⟨.preferred, sym, "Preferred", ld, none, pv, []⟩ := by
  rfl

/-- Helper: the VWSP computation evaluated through the list its filter
produces, with the division-by-zero guard collapsed into rational division
(both give 0 when the quantity sum is 0). -/
theorem vwsp_eval (stock : Stock) (now : ℚ) (sel : List Trade)
    (hsel : stock.trades.filter (fun t => decide (now - 300 ≤ t.timestamp)) = sel) :
    StockOps.calculate_volume_weighted_stock_price stock now =
      if sel = [] then 0
      else (sel.map (fun t => t.quantity * t.price)).sum /
           (sel.map (fun t => t.quantity)).sum := by
  simp only [StockOps.calculate_volume_weighted_stock_price]
  rw [hsel]
  simp only [List.map_map, Function.comp_def, List.isEmpty_iff, List.map_eq_nil_iff]
  rcases eq_or_ne sel [] with h | h
  · subst h
    simp
  · rw [if_neg h, if_neg h]
    rcases eq_or_ne ((sel.map (fun t => t.quantity)).sum) 0 with hq | hq
    · rw [if_pos hq, hq, div_zero]
    · rw [if_neg hq]

/-- Helper: when every recorded timestamp is at most now, the one-sided
filter of the source equals the two-sided window selection of the spec. -/
theorem vwsp_filter_eq (stock : Stock) (now : ℚ)
    (hts : ∀ t ∈ stock.trades, t.timestamp ≤ now) :
    stock.trades.filter (fun t => decide (now - 300 ≤ t.timestamp)) =
      specWindowSelection stock now := by
  unfold specWindowSelection
  apply List.filter_congr
  intro t ht
  have h := hts t ht
  by_cases h2 : now - 300 ≤ t.timestamp <;> simp [h2, h]

/-- Claim C2: given that every stored timestamp is at most now (record_trade
stamps each trade with the clock value current at append time, so at query
time no stored timestamp exceeds now), the VWSP selection is exactly the
trades with timestamp in the closed window from now - 300 to now, the lower
bound included; an empty selection gives 0 rather than an error, and a
nonempty one gives sum(qty * price) / sum(qty) over the selection. -/
theorem vwsp_window_spec (stock : Stock) (now : ℚ)
    (hts : ∀ t ∈ stock.trades, t.timestamp ≤ now) :
    (∀ t, t ∈ specWindowSelection stock now ↔
      t ∈ stock.trades ∧ now - 300 ≤ t.timestamp ∧ t.timestamp ≤ now) ∧
    (specWindowSelection stock now = [] →
      StockOps.calculate_volume_weighted_stock_price stock now = 0) ∧
    (specWindowSelection stock now ≠ [] →
      StockOps.calculate_volume_weighted_stock_price stock now =
        ((specWindowSelection stock now).map (fun t => t.quantity * t.price)).sum /
        ((specWindowSelection stock now).map (fun t => t.quantity)).sum) := by
  have heval := vwsp_eval stock now _ (vwsp_filter_eq stock now hts)
  refine ⟨?_, ?_, ?_⟩
  · intro t
    unfold specWindowSelection
    simp [List.mem_filter]
  · intro h
    rw [heval, if_pos h]
  · intro h
    rw [heval, if_neg h]

/-- A concrete stock for the C2 witness: one trade on the lower window
boundary, one inside the window, one just outside. -/
def boundaryStock : Stock :=
  ⟨.common, "POP", "Common", 8, none, 100,
    [⟨0, 10, "BUY", 100⟩, ⟨-300, 30, "SELL", 60⟩, ⟨-301, 5, "BUY", 1000⟩]⟩

/-- Witness for C2: at now = 0 the trade stamped -300 is selected, the trade
stamped -301 is not, and the VWSP is (10 * 100 + 30 * 60) / 40 = 70. -/
theorem vwsp_window_spec_witness :
    (⟨-300, 30, "SELL", 60⟩ : Trade) ∈ specWindowSelection boundaryStock 0 ∧
    (⟨-301, 5, "BUY", 1000⟩ : Trade) ∉ specWindowSelection boundaryStock 0 ∧
    StockOps.calculate_volume_weighted_stock_price boundaryStock 0 = 70 := by
  have hts : ∀ t ∈ boundaryStock.trades, t.timestamp ≤ 0 := by
    intro t ht
    simp only [boundaryStock, List.mem_cons, List.not_mem_nil, or_false] at ht
    rcases ht with h | h | h <;> subst h <;> norm_num
  have h := vwsp_window_spec boundaryStock 0 hts
  have hwsel : specWindowSelection boundaryStock 0 =
      [⟨0, 10, "BUY", 100⟩, ⟨-300, 30, "SELL", 60⟩] := by
    norm_num [specWindowSelection, boundaryStock, List.filter_cons]
  refine ⟨?_, ?_, ?_⟩
  · rw [hwsel]
    exact List.mem_cons_of_mem _ (List.mem_cons_self _ _)
  · rw [hwsel]
    intro hmem
    simp only [List.mem_cons, List.not_mem_nil, or_false, Trade.mk.injEq] at hmem
    rcases hmem with ⟨h1, h2⟩ | ⟨h1, h2⟩ <;> norm_num at h1
  · rw [h.2.2 (by rw [hwsel]; simp), hwsel]
    norm_num

/-- Helper: validation succeeds on a valid trade. -/
theorem record_trade_validate_of_valid (t : Trade) (h : validTrade t) :
    record_trade_validate t.quantity t.trade_type t.price = .ok () := by
  obtain ⟨hq, hp, hty⟩ := h
  have h1 : ¬ (t.quantity ≤ 0 ∨ t.price ≤ 0) := by
    push_neg
    exact ⟨hq, hp⟩
  have h2 : ¬ ¬ (t.trade_type = "BUY" ∨ t.trade_type = "SELL") := not_not_intro hty
  unfold record_trade_validate
  rw [if_neg h1, if_neg h2]

/-- Helper: record_trade on a valid trade appends it to the ledger. -/
theorem record_trade_valid_eq (s : Stock) (t : Trade) (h : validTrade t) :
    StockOps.record_trade s t.quantity t.trade_type t.price t.timestamp =
      { s with trades := s.trades ++ [t] } := by
  unfold StockOps.record_trade
  rw [record_trade_validate_of_valid t h]

/-- Helper: appending a list of valid trades appends exactly that list to
the ledger, in order. -/
theorem recordAll_trades (l : List Trade) (s : Stock)
    (h : ∀ t ∈ l, validTrade t) :
    (recordAll s l).trades = s.trades ++ l := by
  induction l generalizing s with
  | nil => simp [recordAll]
  | cons t rest ih =>
    have hvt : validTrade t := h t (List.mem_cons_self t rest)
    have hrest : ∀ x ∈ rest, validTrade x := fun x hx => h x (List.mem_cons_of_mem t hx)
    show (recordAll (StockOps.record_trade s t.quantity t.trade_type t.price t.timestamp) rest).trades = _
    rw [ih _ hrest, record_trade_valid_eq s t hvt]
    simp

/-- Claim C9: starting from an empty ledger and appending any permutation of
a fixed list of valid trades whose timestamps lie inside the query window,
the VWSP equals sum(qty * price) / sum(qty) over the original list, so the
result does not depend on the append order. -/
theorem vwsp_permutation_invariant (s : Stock) (l l2 : List Trade) (now : ℚ)
    (hs : s.trades = [])
    (hperm : l.Perm l2)
    (hvalid : ∀ t ∈ l, validTrade t)
    (hwin : ∀ t ∈ l, now - 300 ≤ t.timestamp ∧ t.timestamp ≤ now) :
    StockOps.calculate_volume_weighted_stock_price (recordAll s l2) now =
      (l.map (fun t => t.quantity * t.price)).sum /
      (l.map (fun t => t.quantity)).sum := by
  have hvalid2 : ∀ t ∈ l2, validTrade t := fun t ht => hvalid t (hperm.mem_iff.mpr ht)
  have hwin2 : ∀ t ∈ l2, now - 300 ≤ t.timestamp ∧ t.timestamp ≤ now :=
    fun t ht => hwin t (hperm.mem_iff.mpr ht)
  have htr : (recordAll s l2).trades = l2 := by
    rw [recordAll_trades l2 s hvalid2, hs]
    simp
  have hfilter : (recordAll s l2).trades.filter
      (fun t => decide (now - 300 ≤ t.timestamp)) = l2 := by
    rw [htr]
    exact List.filter_eq_self.mpr (fun t ht => decide_eq_true (hwin2 t ht).1)
  have hsum1 : (l.map (fun t => t.quantity * t.price)).sum =
      (l2.map (fun t => t.quantity * t.price)).sum :=
    (hperm.map (fun t => t.quantity * t.price)).sum_eq
  have hsum2 : (l.map (fun t => t.quantity)).sum =
      (l2.map (fun t => t.quantity)).sum :=
    (hperm.map (fun t => t.quantity)).sum_eq
  rw [vwsp_eval (recordAll s l2) now l2 hfilter, hsum1, hsum2]
  rcases eq_or_ne l2 [] with h2 | h2
  · subst h2; simp
  · rw [if_neg h2]

/-- The POP trade of main(): quantity 200, BUY, price 150, here stamped
10 seconds before the query time. -/
def popTradeA : Trade := ⟨-10, 200, "BUY", 150⟩

/-- The POP trade of main(): quantity 50, SELL, price 125, here stamped
5 seconds before the query time. -/
def popTradeB : Trade := ⟨-5, 50, "SELL", 125⟩

/-- Witness for C9: appending the two POP trades in swapped order still
gives (200 * 150 + 50 * 125) / 250 = 145. -/
theorem vwsp_permutation_invariant_witness :
    StockOps.calculate_volume_weighted_stock_price
      (recordAll popStock [popTradeB, popTradeA]) 0 = 145 := by
  have h := vwsp_permutation_invariant popStock [popTradeA, popTradeB]
      [popTradeB, popTradeA] 0 rfl (List.Perm.swap popTradeB popTradeA [])
      (by norm_num [List.forall_mem_cons, validTrade, popTradeA, popTradeB])
      (by norm_num [List.forall_mem_cons, popTradeA, popTradeB])
  rw [h]
  norm_num [popTradeA, popTradeB]

/-- Helper: looking up the inserted key finds the new value. -/
theorem dictGet_dictInsert_self (l : List (String × Stock)) (k : String) (v : Stock) :
    dictGet (dictInsert l k v) k = some v := by
  induction l with
  | nil => simp [dictInsert, dictGet]
  | cons hd rest ih =>
    obtain ⟨k2, v2⟩ := hd
    by_cases h : k2 = k
    · subst h
      simp [dictInsert, dictGet]
    · simp [dictInsert, dictGet, h, ih]

/-- Helper: looking up any other key is unaffected by the insertion. -/
theorem dictGet_dictInsert_ne (l : List (String × Stock)) (k k3 : String) (v : Stock)
    (h : k3 ≠ k) :
    dictGet (dictInsert l k v) k3 = dictGet l k3 := by
  have h2 : ¬ (k = k3) := fun hh => h hh.symm
  induction l with
  | nil => simp [dictInsert, dictGet, h2]
  | cons hd rest ih =>
    obtain ⟨k2, v2⟩ := hd
    by_cases h3 : k2 = k
    · subst h3
      simp [dictInsert, dictGet, h2]
    · by_cases h4 : k2 = k3
      · subst h4
        simp [dictInsert, dictGet, h3]
      · simp [dictInsert, dictGet, h3, h4, ih]

/-- Helper: the key list after insertion is unchanged when the key was
present, and gains the key at the end otherwise. -/
theorem dictInsert_keys (l : List (String × Stock)) (k : String) (v : Stock) :
    (dictInsert l k v).map Prod.fst =
      if k ∈ l.map Prod.fst then l.map Prod.fst else l.map Prod.fst ++ [k] := by
  induction l with
  | nil => simp [dictInsert]
  | cons hd rest ih =>
    obtain ⟨k2, v2⟩ := hd
    by_cases h : k2 = k
    · subst h
      simp [dictInsert]
    · have hne : k ≠ k2 := fun hh => h hh.symm
      by_cases hm : k ∈ rest.map Prod.fst
      · simp [dictInsert, h, ih, hm, List.mem_cons, hne]
      · simp [dictInsert, h, ih, hm, List.mem_cons, hne]

/-- Helper: inserting an already-present key keeps the length. -/
theorem dictInsert_length_of_mem (l : List (String × Stock)) (k : String) (v : Stock)
    (h : k ∈ l.map Prod.fst) :
    (dictInsert l k v).length = l.length := by
  induction l with
  | nil => simp at h
  | cons hd rest ih =>
    obtain ⟨k2, v2⟩ := hd
    by_cases h2 : k2 = k
    · subst h2
      simp [dictInsert]
    · have hm : k ∈ rest.map Prod.fst := by
        rcases (List.mem_cons.mp h) with h3 | h3
        · exact absurd h3.symm h2
        · exact h3
      simp [dictInsert, h2, ih hm]

/-- Helper: insertion preserves uniqueness of the keys. -/
theorem dictInsert_nodup (l : List (String × Stock)) (k : String) (v : Stock)
    (h : (l.map Prod.fst).Nodup) :
    ((dictInsert l k v).map Prod.fst).Nodup := by
  rw [dictInsert_keys]
  by_cases hm : k ∈ l.map Prod.fst
  · simp [hm, h]
  · simp [hm, List.nodup_append, h]

/-- Claim C10: re-registering a symbol silently replaces the stored stock
(add_stock is total, no error path), the new stock is found under the
symbol, keys stay unique so the market keeps exactly one entry per symbol
(the length is unchanged when the symbol was present), and the entry of
every other symbol is untouched. -/
theorem add_stock_overwrite (m : StockMarket) (s : Stock)
    (hnodup : (m.stocks.map Prod.fst).Nodup) :
    dictGet (m.add_stock s).stocks s.symbol = some s ∧
    ((m.add_stock s).stocks.map Prod.fst).Nodup ∧
    (∀ k, k ≠ s.symbol → dictGet (m.add_stock s).stocks k = dictGet m.stocks k) ∧
    (s.symbol ∈ m.stocks.map Prod.fst →
      (m.add_stock s).stocks.length = m.stocks.length) := by
  refine ⟨dictGet_dictInsert_self _ _ _, dictInsert_nodup _ _ _ hnodup,
    fun k hk => dictGet_dictInsert_ne _ _ _ _ hk,
    fun hm => dictInsert_length_of_mem _ _ _ hm⟩

/-- A market holding the TEA and GIN sample stocks. -/
def twoStockMarket : StockMarket := ⟨[("TEA", teaStock), ("GIN", ginStock)]⟩

/-- A replacement TEA stock with a different last dividend. -/
def teaStockNew : Stock := ⟨.common, "TEA", "Common", 5, none, 100, []⟩

/-- Witness for C10: re-adding TEA replaces its entry, leaves GIN alone and
keeps the market at two entries. -/
theorem add_stock_overwrite_witness :
    dictGet (twoStockMarket.add_stock teaStockNew).stocks "TEA" = some teaStockNew ∧
    dictGet (twoStockMarket.add_stock teaStockNew).stocks "GIN" =
      dictGet twoStockMarket.stocks "GIN" ∧
    (twoStockMarket.add_stock teaStockNew).stocks.length =
      twoStockMarket.stocks.length := by
  have h := add_stock_overwrite twoStockMarket teaStockNew (by simp [twoStockMarket])
  exact ⟨h.1, h.2.2.1 "GIN" (by simp [teaStockNew]),
    h.2.2.2 (by simp [twoStockMarket, teaStockNew])⟩

/-- Helper: the filter "p and p > 0" of the source keeps exactly the
positive values. -/
theorem python_positive_filter (l : List ℚ) :
    l.filter (fun p => decide (p ≠ 0) && decide (0 < p)) =
      l.filter (fun p => decide (0 < p)) := by
  apply List.filter_congr
  intro p _
  by_cases h : 0 < p
  · simp [h, ne_of_gt h]
  · simp [h]

/-- Claim C3: get_all_share_index computes the VWSP of every stock, keeps
exactly the positive results, returns 0 when nothing is kept, and otherwise
returns the geometric mean of the n kept values: a nonnegative real whose
n-th power is their product. -/
theorem all_share_index_geometric_mean (m : StockMarket) (now : ℚ) :
    (positiveVWSPs m now = [] → m.get_all_share_index now = 0) ∧
    (positiveVWSPs m now ≠ [] →
      0 ≤ m.get_all_share_index now ∧
      m.get_all_share_index now ^ (positiveVWSPs m now).length =
        ((positiveVWSPs m now).map (fun q : ℚ => (q : ℝ))).prod) := by
  have hkept : (m.stocks.map
      (fun kv => StockOps.calculate_volume_weighted_stock_price kv.2 now)).filter
      (fun p => decide (p ≠ 0) && decide (0 < p)) = positiveVWSPs m now := by
    unfold positiveVWSPs
    exact python_positive_filter _
  constructor
  · intro h
    simp only [StockMarket.get_all_share_index]
    rw [hkept, h]
    simp
  · intro h
    have hpos : ∀ q ∈ positiveVWSPs m now, 0 < q := by
      intro q hq
      unfold positiveVWSPs at hq
      simp only [List.mem_filter, decide_eq_true_eq] at hq
      exact hq.2
    have hprodpos : 0 < ((positiveVWSPs m now).map (fun q : ℚ => (q : ℝ))).prod := by
      apply List.prod_pos
      intro a ha
      rw [List.mem_map] at ha
      obtain ⟨q, hq, hcast⟩ := ha
      rw [← hcast]
      exact_mod_cast hpos q hq
    have hlen : (positiveVWSPs m now).length ≠ 0 := by
      simpa [List.length_eq_zero] using h
    have hne : (positiveVWSPs m now).isEmpty ≠ true := by
      simpa [List.isEmpty_iff] using h
    have hidx : m.get_all_share_index now =
        (((positiveVWSPs m now).map (fun q : ℚ => (q : ℝ))).prod) ^
          ((1 : ℝ) / (positiveVWSPs m now).length) := by
      simp only [StockMarket.get_all_share_index]
      rw [hkept, if_neg hne]
    constructor
    · rw [hidx]
      exact Real.rpow_nonneg hprodpos.le _
    · rw [hidx, one_div]
      exact Real.rpow_inv_natCast_pow hprodpos.le hlen

/-- A one-stock market whose stock has a single in-window trade at
price 120 and quantity 10, so its VWSP is 120. -/
def oneStockMarket : StockMarket :=
  ⟨[("POP", ⟨.common, "POP", "Common", 8, none, 100, [⟨-10, 10, "BUY", 120⟩]⟩)]⟩

/-- Witness for C3: on the one-stock market the index is nonnegative and
its first power is 120, the single kept VWSP. -/
theorem all_share_index_geometric_mean_witness :
    0 ≤ oneStockMarket.get_all_share_index 0 ∧
    oneStockMarket.get_all_share_index 0 ^ (1 : ℕ) = ((120 : ℚ) : ℝ) := by
  have hp : positiveVWSPs oneStockMarket 0 = [120] := by
    norm_num [positiveVWSPs, oneStockMarket,
      StockOps.calculate_volume_weighted_stock_price, List.filter_cons]
  have h := (all_share_index_geometric_mean oneStockMarket 0).2 (by rw [hp]; simp)
  refine ⟨h.1, ?_⟩
  have h2 := h.2
  rw [hp] at h2
  simpa using h2
